import Mathlib

/-!
Shallow embedding of `src/h_sensor_acq.py` (Keithley I/V acquisition helper).

The Python script reads raw csv measurement files from a directory, matches
each against a notes csv (filename → description), prompts the user for a
label on a match, and manages the resulting ordered list of labeled
dataframes: slicing (`slice_dfs`), listing (`dfs_indexes`), persistence to an
HDF5 store keyed by label (`save_dfs`) and reload (`read_ivs`).

Modelling conventions:
* numeric csv cell values are modelled as `Int` (their exact type is
  irrelevant to every claim; only column identity and row order matter);
* a raw data file is its name plus its columns (name → value list), so that
  `pd.read_csv(..., usecols=oldnames)` failing on a missing column is the
  `Option.none` case of the loader;
* filesystem reads are passed in as values: the outcome of `get_notes`
  (which the script wraps in `try/except`, binding `notes = 0` on failure)
  is an `Option (List NotesRow)`, and `os.listdir` is a `List DataFile`;
* the interactive `input(...)` call is an oracle `ask : String → String`
  from the prompted filename to the user's answer, and the builder also
  returns the list of filenames it prompted for, so that "no prompt" is a
  provable statement;
* a Python exception caught by the per-file `except: continue` is the
  `Option.none` outcome of processing that file;
* `str(notes.filename)` (the pandas `Series` repr the script uses for its
  containment test) is modelled as the newline-joined rows
  `"<index>    <filename>"` followed by the `Name:/dtype` footer; pandas
  row/width truncation of very long series is not modelled.
-/

/-- One (time, voltage, current) sample row, values as integers. -/
structure Sample where
  t_s : Int
  v : Int
  i : Int
deriving DecidableEq, Repr

/-- A labeled measurement record: the dataframe produced by
`get_sensor_data`, i.e. the renamed three columns zipped into rows plus the
constant `fname` and `label` columns. -/
structure Rec where
  fname : String
  label : String
  samples : List Sample
deriving DecidableEq, Repr

/-- A raw csv data file: its name and its columns (header → cell values). -/
structure DataFile where
  name : String
  columns : List (String × List Int)
deriving DecidableEq, Repr

/-- One row of the notes csv: `filename,description`. -/
structure NotesRow where
  filename : String
  description : String
deriving DecidableEq, Repr

/-- Column lookup in a raw file: the first column with the given header,
as `pd.read_csv(usecols=...)` selects by header name. -/
def getCol (f : DataFile) (c : String) : Option (List Int) :=
  (f.columns.find? (fun p => p.1 = c)).map (fun p => p.2)

/-- Zip three equally long columns into sample rows. -/
def zipSamples : List Int → List Int → List Int → List Sample
  | t :: ts, v :: vs, i :: is => ⟨t, v, i⟩ :: zipSamples ts vs is
  | _, _, _ => []

/-- Embeds `get_sensor_data(path, fname, label)`: select the three Keithley columns,
rename them to `t_s`, `v`, `i`, and attach `fname` and `label`.  `none`
models the `pd.read_csv` exception when a required column is missing. -/
def get_sensor_data (f : DataFile) (label : String) : Option Rec :=
  match getCol f "Smu1_Time(1)(1)", getCol f "Smu1_V(1)(1)", getCol f "Smu1_I(1)(1)" with
  | some t, some v, some i => some ⟨f.name, label, zipSamples t v i⟩
  | _, _, _ => none

/-- Python's `needle in hay` substring containment on character lists. -/
def isSubchain (needle : List Char) : List Char → Bool
  | [] => needle.isEmpty
  | c :: rest => needle.isPrefixOf (c :: rest) || isSubchain needle rest

/-- Python's `a in b` for strings. -/
def strContains (hay needle : String) : Bool :=
  isSubchain needle.data hay.data

/-- Python's `s.endswith(suffix)` (structurally recursive, so that concrete
instances evaluate in the kernel). -/
def strEndsWith (s suffix : String) : Bool :=
  suffix.data.reverse.isPrefixOf s.data.reverse

/-- Embeds `str(notes.filename)`: the pandas Series repr of the filename column —
index-prefixed rows joined by newlines plus the Name/dtype footer. -/
def filenameSeriesStr (notes : List NotesRow) : String :=
  String.intercalate "\n"
      ((notes.enum.map (fun p => toString p.1 ++ "    " ++ p.2.filename)))
    ++ "\nName: filename, dtype: object"

/-- The body of the per-file `try:` block of `get_all_raw_ivs` for one
`.csv` file, given a successfully loaded notes table.  Returns the record
appended to `dfs` (or `none` when the iteration hits `except: continue`)
together with the filenames prompted for (the `input(...)` calls issued).

Mirrors the source exactly: the containment test is against the serialized
filename column; on containment, `notes.index[notes.filename == file][0]`
takes the FIRST row whose filename equals the file exactly and raises
`IndexError` (caught, file skipped) when no such row exists; the prompt is
issued before the load, so a prompt can be issued even when the subsequent
load fails. -/
def processFileWithNotes (ns : List NotesRow) (ask : String → String)
    (f : DataFile) : Option Rec × List String :=
  if strContains (filenameSeriesStr ns) f.name then
    match ns.find? (fun row => row.filename = f.name) with
    | some _row => (get_sensor_data f (ask f.name), [f.name])
    | none => (none, [])
  else
    (get_sensor_data f "not in notes", [])

/-- One `.csv` file iteration of the directory loop.  When the notes table
failed to load the script bound `notes = 0`, so `str(notes.filename)`
raises `AttributeError` inside the `try:` and the file is skipped. -/
def processFile (notes : Option (List NotesRow)) (ask : String → String)
    (f : DataFile) : Option Rec × List String :=
  match notes with
  | none => (none, [])
  | some ns => processFileWithNotes ns ask f

/-- The directory loop of `get_all_raw_ivs`: for each file ending in
`.csv`, run the guarded per-file body; accumulate the loaded dataframes in
directory order, and the prompts in the order they were issued. -/
def buildDfs (notes : Option (List NotesRow)) (ask : String → String) :
    List DataFile → List Rec × List String
  | [] => ([], [])
  | f :: rest =>
      let tail := buildDfs notes ask rest
      if strEndsWith f.name ".csv" then
        let step := processFile notes ask f
        (step.1.toList ++ tail.1, step.2 ++ tail.2)
      else
        tail

/-- Embeds `get_all_raw_ivs(path, notesname)`: the outcome of `get_notes`
(`none` when the csv read raised and the script printed
`no notes for this directory`) is a parameter, as is the directory listing.
Returns the notes value, the dataframe list, and the prompts issued. -/
def get_all_raw_ivs (notes : Option (List NotesRow)) (ask : String → String)
    (dir : List DataFile) : Option (List NotesRow) × List Rec × List String :=
  (notes, buildDfs notes ask dir)

/-- Python list indexing `dfs[i]` for `int` `i`: non-negative indices from
the front, negative indices from the end, `IndexError` (here `none`)
otherwise. -/
def pyGet (l : List Rec) (i : Int) : Option Rec :=
  if 0 ≤ i then l.get? i.toNat
  else if -(l.length : Int) ≤ i then l.get? ((l.length : Int) + i).toNat
  else none

/-- Embeds `slice_dfs(dfs, n)`: append `dfs[n[i]]` for each `i` in order; the first
`IndexError` aborts the call with no partial result (`none`). -/
def slice_dfs (dfs : List Rec) (n : List Int) : Option (List Rec) :=
  n.mapM (pyGet dfs)

/-- Embeds `dfs_indexes(dfs, istart, iend)` (defaults `istart=0`, `iend=0`): the
lines printed, each being `(i, dfs[i].label[0], dfs[i].fname[0])`.  The
source first replaces `iend` by `len(dfs)` when `iend == 0` or
`iend < istart`, then prints every index `i` in `range(len(dfs))` with
`istart <= i <= iend`. -/
def dfs_indexes (dfs : List Rec) (istart iend : Nat) : List (Nat × String × String) :=
  let iend2 := if iend = 0 ∨ iend < istart then dfs.length else iend
  (List.range dfs.length).filterMap (fun i =>
    match dfs.get? i with
    | some r => if istart ≤ i ∧ i ≤ iend2 then some (i, r.label, r.fname) else none
    | none => none)

/-- The persisted HDF5 store: an ordered keyed container, one dataframe per
key.  Writing an existing key overwrites its value in place; writing a new
key appends it.  (Real `HDFStore.keys()` enumeration order is
store-internal; the claims proved below are insensitive to it.) -/
abbrev Store := List (String × Rec)

/-- Embeds `df.to_hdf(filename, key)`: write `v` under key `k`, silently
overwriting the existing entry for `k` in place, else appending. -/
def storePut : Store → String → Rec → Store
  | [], k, v => [(k, v)]
  | p :: t, k, v => if p.1 = k then (k, v) :: t else p :: storePut t k v

/-- The loop of `save_dfs(dfs, filename)` starting from store `s`: each
dataframe is written under its label (`dfs[i].label[0]`) as the key. -/
def saveFrom (s : Store) : List Rec → Store
  | [] => s
  | r :: rest => saveFrom (storePut s r.label r) rest

/-- Embeds `save_dfs(dfs, filename)` into a fresh store. -/
def save_dfs (dfs : List Rec) : Store := saveFrom [] dfs

/-- Embeds `read_ivs(filename)`: one dataframe per key of the store, in key
enumeration order. -/
def read_ivs (s : Store) : List Rec := s.map (fun p => p.2)

/-! ### Concrete inputs used by witnesses and counterexamples -/

/-- A parseable data file with all three Keithley columns. -/
def demoFile : DataFile :=
  ⟨"a.csv", [("Smu1_Time(1)(1)", [1, 2]), ("Smu1_V(1)(1)", [3, 4]), ("Smu1_I(1)(1)", [5, 6])]⟩

/-- A deterministic stand-in for the interactive user. -/
def demoAsk : String → String := fun _ => "mylabel"

/-! ### Helper lemmas -/

/-- With the absent-notes sentinel, every directory iteration hits the
`AttributeError` on `notes.filename` and is skipped. -/
theorem buildDfs_absent_notes (ask : String → String) :
    ∀ dir : List DataFile, buildDfs none ask dir = ([], [])
  | [] => rfl
  | f :: rest => by
      have ih := buildDfs_absent_notes ask rest
      by_cases he : strEndsWith f.name ".csv" <;> simp [buildDfs, processFile, ih, he]

/-- C1: building the collection with the notes file unreadable is not fatal
and issues no prompts, but — contrary to the claim — returns an EMPTY
collection even though the directory holds a parseable data file that the
default label would apply to: `notes = 0` makes `notes.filename` raise
inside the per-file `try`, so every file is skipped. -/
theorem get_all_raw_ivs_absent_notes_bug :
    get_all_raw_ivs none demoAsk [demoFile] = (none, [], []) ∧
    get_sensor_data demoFile "not in notes" =
      some ⟨"a.csv", "not in notes", [⟨1, 3, 5⟩, ⟨2, 4, 6⟩]⟩ := by
  constructor
  · exact congrArg (Prod.mk none) (buildDfs_absent_notes demoAsk [demoFile])
  · rfl

/-- On a non-negative index Python indexing reads from the front. -/
theorem pyGet_nonneg (l : List Rec) (i : Int) (h0 : 0 ≤ i) :
    pyGet l i = l.get? i.toNat := by
  unfold pyGet; rw [if_pos h0]

/-- On a negative index at least `-len`, Python indexing reads from the end. -/
theorem pyGet_neg (l : List Rec) (i : Int) (hneg : i < 0) (hge : -(l.length : Int) ≤ i) :
    pyGet l i = l.get? ((l.length : Int) + i).toNat := by
  unfold pyGet; rw [if_neg (by omega), if_pos hge]

/-- Python indexing succeeds on every index of `[-len, len)`. -/
theorem pyGet_some_of_range (l : List Rec) (i : Int)
    (h1 : -(l.length : Int) ≤ i) (h2 : i < (l.length : Int)) :
    ∃ r, pyGet l i = some r := by
  by_cases h0 : 0 ≤ i
  · have hlt : i.toNat < l.length := by omega
    exact ⟨l.get ⟨i.toNat, hlt⟩, by rw [pyGet_nonneg l i h0]; exact List.get?_eq_get hlt⟩
  · have hlt : ((l.length : Int) + i).toNat < l.length := by omega
    exact ⟨l.get ⟨_, hlt⟩, by
      rw [pyGet_neg l i (by omega) h1]; exact List.get?_eq_get hlt⟩

/-- Python indexing fails outside `[-len, len)`. -/
theorem pyGet_none_of_out (l : List Rec) (i : Int)
    (h : i < -(l.length : Int) ∨ (l.length : Int) ≤ i) :
    pyGet l i = none := by
  unfold pyGet
  rcases h with h | h
  · rw [if_neg (by omega), if_neg (by omega)]
  · rw [if_pos (by omega)]
    exact List.get?_eq_none.mpr (by omega)

/-- Unfolding of `slice_dfs` on a cons cell. -/
theorem slice_cons (dfs : List Rec) (i : Int) (n : List Int) :
    slice_dfs dfs (i :: n) =
      (pyGet dfs i).bind (fun r => (slice_dfs dfs n).map (fun rs => r :: rs)) := by
  show (i :: n).mapM (pyGet dfs) =
    (pyGet dfs i).bind (fun r => (n.mapM (pyGet dfs)).map (fun rs => r :: rs))
  rw [List.mapM_cons]
  cases h : pyGet dfs i
  · rfl
  · cases h2 : n.mapM (pyGet dfs) <;> rfl

/-- A single out-of-range index aborts the whole slice. -/
theorem slice_none_of_bad (dfs : List Rec) (n : List Int) (i : Int)
    (hi : i ∈ n) (hbad : pyGet dfs i = none) : slice_dfs dfs n = none := by
  induction n with
  | nil => cases hi
  | cons j t ih =>
      rw [slice_cons]
      rcases List.mem_cons.mp hi with rfl | hmem
      · rw [hbad]; rfl
      · rw [ih hmem]
        cases pyGet dfs j <;> rfl

/-- Content specification of a fully in-range slice. -/
theorem slice_some_spec (dfs : List Rec) (n : List Int)
    (h : ∀ i ∈ n, -(dfs.length : Int) ≤ i ∧ i < (dfs.length : Int)) :
    ∃ out, slice_dfs dfs n = some out ∧ out.length = n.length ∧
      ∀ k : Nat, out.get? k = (n.get? k).bind (pyGet dfs) := by
  induction n with
  | nil => exact ⟨[], rfl, rfl, by intro k; simp [List.get?]⟩
  | cons i t ih =>
      obtain ⟨hi1, hi2⟩ := h i (List.mem_cons_self i t)
      obtain ⟨r, hr⟩ := pyGet_some_of_range dfs i hi1 hi2
      obtain ⟨out, hout, hlen, hget⟩ := ih (fun j hj => h j (List.mem_cons_of_mem _ hj))
      refine ⟨r :: out, ?_, by simp [hlen], ?_⟩
      · rw [slice_cons, hr, hout]; rfl
      · intro k
        cases k with
        | zero => simp [List.get?, hr]
        | succ k => simpa [List.get?] using hget k

/-- Two further concrete records for witnesses. -/
def recA : Rec := ⟨"a.csv", "x", [⟨1, 3, 5⟩]⟩

/-- Companion record with a distinct label. -/
def recB : Rec := ⟨"b.csv", "y", []⟩

/-- C2: slicing with every index in range yields a collection of the same
length as the index list whose `k`-th element is the record at the `k`-th
index (duplicates and reordering permitted, as nothing constrains `n`). -/
theorem slice_dfs_in_range (dfs : List Rec) (n : List Int)
    (h : ∀ i ∈ n, -(dfs.length : Int) ≤ i ∧ i < (dfs.length : Int)) :
    ∃ out, slice_dfs dfs n = some out ∧ out.length = n.length ∧
      ∀ k : Nat, out.get? k = (n.get? k).bind (pyGet dfs) :=
  slice_some_spec dfs n h

/-- Witness for `slice_dfs_in_range` on a duplicated, reordered index list. -/
theorem slice_dfs_in_range_witness :
    ∃ out, slice_dfs [recA, recB] [1, 0, 1] = some out ∧
      out.length = ([1, 0, 1] : List Int).length ∧
      ∀ k : Nat, out.get? k = (([1, 0, 1] : List Int).get? k).bind (pyGet [recA, recB]) :=
  slice_dfs_in_range [recA, recB] [1, 0, 1] (by decide)

/-- C7: an index list containing an out-of-range element makes the whole
`slice_dfs` call fail with no partial result. -/
theorem slice_dfs_out_of_range (dfs : List Rec) (n : List Int)
    (h : ∃ i ∈ n, i < -(dfs.length : Int) ∨ (dfs.length : Int) ≤ i) :
    slice_dfs dfs n = none := by
  obtain ⟨i, hi, hout⟩ := h
  exact slice_none_of_bad dfs n i hi (pyGet_none_of_out dfs i hout)

/-- Witness for `slice_dfs_out_of_range`. -/
theorem slice_dfs_out_of_range_witness :
    slice_dfs [recA, recB] [0, 2] = none :=
  slice_dfs_out_of_range [recA, recB] [0, 2] (by decide)

/-- C8: a negative index `j` with `-len ≤ j < 0` does not fail: it selects
the record at position `len + j`; and a slice fails exactly when some index
is `≥ len` or `< -len`. -/
theorem slice_dfs_negative_index (dfs : List Rec) (j : Int)
    (h1 : -(dfs.length : Int) ≤ j) (h2 : j < 0) :
    (∃ r, pyGet dfs j = some r ∧ dfs.get? ((dfs.length : Int) + j).toNat = some r) ∧
    ∀ n : List Int, slice_dfs dfs n = none ↔
      ∃ i ∈ n, i < -(dfs.length : Int) ∨ (dfs.length : Int) ≤ i := by
  constructor
  · have hlt : ((dfs.length : Int) + j).toNat < dfs.length := by omega
    refine ⟨dfs.get ⟨_, hlt⟩, ?_, List.get?_eq_get hlt⟩
    rw [pyGet_neg dfs j h2 h1]
    exact List.get?_eq_get hlt
  · intro n
    constructor
    · intro hnone
      by_contra hno
      push_neg at hno
      obtain ⟨out, hout, -, -⟩ := slice_some_spec dfs n hno
      rw [hout] at hnone
      cases hnone
    · intro h
      obtain ⟨i, hi, hout⟩ := h
      exact slice_none_of_bad dfs n i hi (pyGet_none_of_out dfs i hout)

/-- Witness for `slice_dfs_negative_index` at `j = -1`. -/
theorem slice_dfs_negative_index_witness :
    (∃ r, pyGet [recA, recB] (-1) = some r ∧
      [recA, recB].get? ((([recA, recB] : List Rec).length : Int) + (-1)).toNat = some r) ∧
    (slice_dfs [recA, recB] [-1, 0] = none ↔
      ∃ i ∈ ([-1, 0] : List Int), i < -(([recA, recB] : List Rec).length : Int) ∨
        (([recA, recB] : List Rec).length : Int) ≤ i) :=
  ⟨(slice_dfs_negative_index [recA, recB] (-1) (by decide) (by decide)).1,
   (slice_dfs_negative_index [recA, recB] (-1) (by decide) (by decide)).2 [-1, 0]⟩

/-- The human-readable listing line for one record. -/
def listingOf (C : List Rec) : List (Nat × String × String) :=
  C.enum.map (fun p => (p.1, p.2.label, p.2.fname))

/-- C6: on a 6-record collection, `dfs_indexes` with `istart = 2`,
`iend = 4` lists exactly the records at indices 2, 3 and 4 (both ends
inclusive), and the default arguments `istart = 0`, `iend = 0` list the
whole collection. -/
theorem dfs_indexes_inclusive_window (C : List Rec) (h : C.length = 6) :
    dfs_indexes C 2 4 = ((listingOf C).drop 2).take 3 ∧
    dfs_indexes C 0 0 = listingOf C := by
  rcases C with _ | ⟨a, _ | ⟨b, _ | ⟨c, _ | ⟨d, _ | ⟨e, _ | ⟨f, _ | ⟨g, t⟩⟩⟩⟩⟩⟩⟩ <;>
    simp only [List.length_nil, List.length_cons] at h <;> try omega
  exact ⟨rfl, rfl⟩

/-- Witness for `dfs_indexes_inclusive_window` on a concrete 6-record
collection. -/
theorem dfs_indexes_inclusive_window_witness :
    dfs_indexes [recA, recB, recA, recB, recA, recB] 2 4 =
      ((listingOf [recA, recB, recA, recB, recA, recB]).drop 2).take 3 ∧
    dfs_indexes [recA, recB, recA, recB, recA, recB] 0 0 =
      listingOf [recA, recB, recA, recB, recA, recB] :=
  dfs_indexes_inclusive_window [recA, recB, recA, recB, recA, recB] rfl

/-- C10: when the given `iend` is `0` or less than `istart`, it is silently
replaced by the collection length, so the listing runs from `istart`
through the last record; in particular with `istart` in range the listing
is never empty. -/
theorem dfs_indexes_iend_fallback (C : List Rec) (istart iend : Nat)
    (h : iend = 0 ∨ iend < istart) :
    dfs_indexes C istart iend = dfs_indexes C istart C.length ∧
    (istart < C.length → dfs_indexes C istart iend ≠ []) := by
  have hL : dfs_indexes C istart iend
      = (List.range C.length).filterMap (fun i =>
          match C.get? i with
          | some r => if istart ≤ i ∧ i ≤ C.length then some (i, r.label, r.fname) else none
          | none => none) := by
    simp only [dfs_indexes, if_pos h]
  have hR : dfs_indexes C istart C.length
      = (List.range C.length).filterMap (fun i =>
          match C.get? i with
          | some r => if istart ≤ i ∧ i ≤ C.length then some (i, r.label, r.fname) else none
          | none => none) := by
    simp only [dfs_indexes, ite_self]
  refine ⟨hL.trans hR.symm, ?_⟩
  intro hlt hempty
  have hr : C.get? istart = some (C.get ⟨istart, hlt⟩) := List.get?_eq_get hlt
  have hmem : (istart, (C.get ⟨istart, hlt⟩).label, (C.get ⟨istart, hlt⟩).fname)
      ∈ dfs_indexes C istart iend := by
    rw [hL]
    refine List.mem_filterMap.mpr ⟨istart, List.mem_range.mpr hlt, ?_⟩
    rw [hr]
    exact if_pos ⟨le_refl istart, Nat.le_of_lt hlt⟩
  rw [hempty] at hmem
  cases hmem

/-- Witness for `dfs_indexes_iend_fallback` at `istart = 3 > iend = 1`. -/
theorem dfs_indexes_iend_fallback_witness :
    dfs_indexes [recA, recB, recA, recB, recA, recB] 3 1 =
      dfs_indexes [recA, recB, recA, recB, recA, recB] 3
        ([recA, recB, recA, recB, recA, recB] : List Rec).length ∧
    dfs_indexes [recA, recB, recA, recB, recA, recB] 3 1 ≠ [] :=
  ⟨(dfs_indexes_iend_fallback [recA, recB, recA, recB, recA, recB] 3 1 (by decide)).1,
   (dfs_indexes_iend_fallback [recA, recB, recA, recB, recA, recB] 3 1 (by decide)).2
     (by decide)⟩

/-- A notes table with a single long Keithley-style filename. -/
def cexNotes : List NotesRow := [⟨"2018_2_16_10_8_24.csv", "test with no ops"⟩]

/-- A data file whose name is a proper substring of the notes filename
above, so the containment test fires without any exact row match. -/
def cexFile : DataFile :=
  ⟨"8_24.csv", [("Smu1_Time(1)(1)", [1]), ("Smu1_V(1)(1)", [2]), ("Smu1_I(1)(1)", [3])]⟩

/-- A data file exactly matching the notes row's filename. -/
def cexFileExact : DataFile :=
  ⟨"2018_2_16_10_8_24.csv", [("Smu1_Time(1)(1)", [1]), ("Smu1_V(1)(1)", [2]), ("Smu1_I(1)(1)", [3])]⟩

/-- Counterexample to C4 as stated: `8_24.csv` occurs as a substring of the
serialized notes column, yet building the collection over it issues NO
prompt (and also no default label — the file is dropped), because the
exact-row lookup `notes.index[notes.filename == file][0]` raises. -/
theorem builder_prompt_substring_cex :
    strContains (filenameSeriesStr cexNotes) cexFile.name = true ∧
    (get_all_raw_ivs (some cexNotes) demoAsk [cexFile]).2.2 = [] ∧
    (get_all_raw_ivs (some cexNotes) demoAsk [cexFile]).2.1 = [] := by
  refine ⟨by decide, by decide, by decide⟩

/-- C4 amended: with a present notes table, a file is prompted for exactly
when its name is contained in the serialized filename column AND some notes
row's filename equals it exactly (the first such row being used); contained
but without an exact row, the file is skipped with no prompt and no record;
not contained, it gets the fixed label `not in notes` with no prompt. -/
theorem builder_prompt_characterization (ns : List NotesRow) (ask : String → String)
    (f : DataFile) :
    ((processFileWithNotes ns ask f).2 = [f.name] ↔
      strContains (filenameSeriesStr ns) f.name = true ∧
      (ns.find? (fun row => row.filename = f.name)).isSome = true) ∧
    ((strContains (filenameSeriesStr ns) f.name = true ∧
        ns.find? (fun row => row.filename = f.name) = none) →
      processFileWithNotes ns ask f = (none, [])) ∧
    (strContains (filenameSeriesStr ns) f.name = false →
      processFileWithNotes ns ask f = (get_sensor_data f "not in notes", [])) := by
  unfold processFileWithNotes
  by_cases hc : strContains (filenameSeriesStr ns) f.name
  · cases hf : ns.find? (fun row => row.filename = f.name) <;>
      simp [hc, hf]
  · simp [hc]

/-- Witness for `builder_prompt_characterization`: the exact-match file is
prompted for, the substring-only file is skipped without a prompt. -/
theorem builder_prompt_characterization_witness :
    (processFileWithNotes cexNotes demoAsk cexFileExact).2 = [cexFileExact.name] ∧
    processFileWithNotes cexNotes demoAsk cexFile = (none, []) := by
  refine ⟨?_, ?_⟩
  · exact (builder_prompt_characterization cexNotes demoAsk cexFileExact).1.mpr
      ⟨by decide, by decide⟩
  · exact (builder_prompt_characterization cexNotes demoAsk cexFile).2.1
      ⟨by decide, by decide⟩

/-- C9: a file whose name is contained in the serialized notes column but
matches no notes row exactly is skipped entirely: no record, no default
label, no prompt, and the rest of the scan is exactly the scan without it. -/
theorem substring_without_exact_match_skipped (ns : List NotesRow)
    (ask : String → String) (f : DataFile) (rest : List DataFile)
    (hsub : strContains (filenameSeriesStr ns) f.name = true)
    (hnone : ns.find? (fun row => row.filename = f.name) = none) :
    processFileWithNotes ns ask f = (none, []) ∧
    buildDfs (some ns) ask (f :: rest) = buildDfs (some ns) ask rest := by
  have h1 : processFileWithNotes ns ask f = (none, []) := by
    simp [processFileWithNotes, hsub, hnone]
  refine ⟨h1, ?_⟩
  by_cases he : strEndsWith f.name ".csv" <;>
    simp [buildDfs, he, processFile, h1]

/-- Witness for `substring_without_exact_match_skipped`. -/
theorem substring_without_exact_match_skipped_witness :
    processFileWithNotes cexNotes demoAsk cexFile = (none, []) ∧
    buildDfs (some cexNotes) demoAsk [cexFile, cexFileExact] =
      buildDfs (some cexNotes) demoAsk [cexFileExact] :=
  substring_without_exact_match_skipped cexNotes demoAsk cexFile [cexFileExact]
    (by decide) (by decide)

/-- A data file missing the current column. -/
def badFile : DataFile :=
  ⟨"bad.csv", [("Smu1_Time(1)(1)", [1]), ("Smu1_V(1)(1)", [2])]⟩

/-- C5: a data file missing one of the three required columns contributes
no record and the scan of the remaining files is unchanged (the load error
is caught by the per-file `except: continue`, so nothing escapes). -/
theorem missing_column_file_skipped (notes : Option (List NotesRow))
    (ask : String → String) (xs ys : List DataFile) (f : DataFile)
    (hbad : getCol f "Smu1_Time(1)(1)" = none ∨ getCol f "Smu1_V(1)(1)" = none ∨
      getCol f "Smu1_I(1)(1)" = none) :
    (processFile notes ask f).1 = none ∧
    (buildDfs notes ask (xs ++ f :: ys)).1 = (buildDfs notes ask (xs ++ ys)).1 := by
  have hload : ∀ label, get_sensor_data f label = none := by
    intro label
    cases h1 : getCol f "Smu1_Time(1)(1)" <;>
      cases h2 : getCol f "Smu1_V(1)(1)" <;>
        cases h3 : getCol f "Smu1_I(1)(1)" <;>
          simp_all [get_sensor_data]
  have hstep : (processFile notes ask f).1 = none := by
    cases notes with
    | none => rfl
    | some ns =>
        show (processFileWithNotes ns ask f).1 = none
        unfold processFileWithNotes
        by_cases hc : strContains (filenameSeriesStr ns) f.name
        · cases hf : ns.find? (fun row => row.filename = f.name) <;>
            simp [hc, hf, hload]
        · simp [hc, hload]
  refine ⟨hstep, ?_⟩
  induction xs with
  | nil =>
      by_cases he : strEndsWith f.name ".csv" <;>
        simp [buildDfs, he, hstep]
  | cons x xt ih =>
      by_cases he : strEndsWith x.name ".csv" <;>
        simp [List.cons_append, buildDfs, he, ih]

/-- Witness for `missing_column_file_skipped`. -/
theorem missing_column_file_skipped_witness :
    (processFile (some cexNotes) demoAsk badFile).1 = none ∧
    (buildDfs (some cexNotes) demoAsk [demoFile, badFile]).1 =
      (buildDfs (some cexNotes) demoAsk [demoFile]).1 :=
  missing_column_file_skipped (some cexNotes) demoAsk [demoFile] [] badFile
    (by decide)

/-- Lookup of a key in the store (`store[key]`). -/
def storeLookup (s : Store) (k : String) : Option Rec :=
  (s.find? (fun p => p.1 = k)).map (fun p => p.2)


/-- Writing a key then reading it back gives the written record. -/
theorem storePut_lookup_same (k : String) (v : Rec) :
    ∀ s : Store, storeLookup (storePut s k v) k = some v
  | [] => by simp [storePut, storeLookup, List.find?_cons]
  | p :: t => by
      by_cases hp : p.1 = k
      · simp [storePut, hp, storeLookup, List.find?_cons]
      · simp only [storePut, hp, if_neg, ite_false]
        simp only [storeLookup, List.find?_cons, hp, decide_eq_false, Bool.false_eq_true]
        simpa [storeLookup] using storePut_lookup_same k v t

/-- Writing a key leaves every other key's lookup unchanged. -/
theorem storePut_lookup_other (k k' : String) (v : Rec) (hkk : k' ≠ k) :
    ∀ s : Store, storeLookup (storePut s k v) k' = storeLookup s k'
  | [] => by
      have : ¬ (k = k') := fun h => hkk h.symm
      simp [storePut, storeLookup, List.find?_cons, this]
  | p :: t => by
      by_cases hp : p.1 = k
      · have h1 : ¬ (k = k') := fun h => hkk h.symm
        have h2 : ¬ (p.1 = k') := by rw [hp]; exact h1
        simp [storePut, hp, storeLookup, List.find?_cons, h1, h2]
      · have hput : storePut (p :: t) k v = p :: storePut t k v := by
          simp [storePut, hp]
        rw [hput]
        by_cases hp' : p.1 = k'
        · simp [storeLookup, List.find?_cons, hp']
        · simp only [storeLookup, List.find?_cons, hp', decide_eq_false, Bool.false_eq_true]
          simpa [storeLookup] using storePut_lookup_other k k' v hkk t

/-- The last record of the list carrying the given label (later elements
take precedence, mirroring the later `to_hdf` write winning). -/
def lastWith (l : String) : List Rec → Option Rec
  | [] => none
  | r :: rest => (lastWith l rest).or (if r.label = l then some r else none)

/-- Identification of `lastWith` with `find?` on the reversed list. -/
theorem lastWith_eq_reverse_find (l : String) :
    ∀ dfs : List Rec, lastWith l dfs = dfs.reverse.find? (fun r => r.label = l)
  | [] => rfl
  | r :: rest => by
      rw [List.reverse_cons, List.find?_append, ← lastWith_eq_reverse_find l rest]
      show (lastWith l rest).or (if r.label = l then some r else none) = _
      by_cases hr : r.label = l <;> simp [List.find?_cons, hr]

/-- Lookup after the save loop: the last write per label wins, and labels
never written fall through to the initial store. -/
theorem saveFrom_lookup (l : String) :
    ∀ (dfs : List Rec) (s : Store),
      storeLookup (saveFrom s dfs) l = (lastWith l dfs).or (storeLookup s l)
  | [], s => by simp [saveFrom, lastWith]
  | r :: rest, s => by
      show storeLookup (saveFrom (storePut s r.label r) rest) l = _
      rw [saveFrom_lookup l rest (storePut s r.label r)]
      by_cases hr : r.label = l
      · have hsame : storeLookup (storePut s r.label r) l = some r := by
          rw [← hr]; exact storePut_lookup_same r.label r s
        rw [hsame]
        simp [lastWith, hr, Option.or_assoc]
      · have hlk : l ≠ r.label := fun h => hr h.symm
        rw [storePut_lookup_other r.label l r hlk s]
        simp [lastWith, hr]

/-- Store well-formedness, as maintained by `save_dfs` from the empty
store: keys are pairwise distinct and each entry's record carries its key
as its label. -/
def storeWF (s : Store) : Prop :=
  (s.map Prod.fst).Nodup ∧ ∀ p ∈ s, p.2.label = p.1

/-- Keys after a write are the old keys or the written key. -/
theorem storePut_mem_keys (k a : String) (v : Rec) :
    ∀ s : Store, a ∈ (storePut s k v).map Prod.fst →
      a ∈ s.map Prod.fst ∨ a = k
  | [], h => by simpa [storePut] using h
  | p :: t, h => by
      by_cases hp : p.1 = k
      · simp only [storePut, hp, if_pos, List.map_cons] at h
        rcases List.mem_cons.mp h with h | h
        · exact Or.inr h
        · exact Or.inl (by rw [List.map_cons]; exact List.mem_cons_of_mem _ h)
      · simp only [storePut, hp, ite_false, if_neg, List.map_cons] at h
        rcases List.mem_cons.mp h with h | h
        · exact Or.inl (by rw [List.map_cons, h]; exact List.mem_cons_self _ _)
        · rcases storePut_mem_keys k a v t h with h' | h'
          · exact Or.inl (by rw [List.map_cons]; exact List.mem_cons_of_mem _ h')
          · exact Or.inr h'

/-- A write preserves store well-formedness when the record carries the
written key as its label. -/
theorem storeWF_put (k : String) (v : Rec) (hv : v.label = k) :
    ∀ s : Store, storeWF s → storeWF (storePut s k v)
  | [], _ => by
      constructor
      · simp [storePut]
      · intro p hp
        simp only [storePut, List.mem_singleton] at hp
        rw [hp]
        exact hv
  | p :: t, h => by
      obtain ⟨hnd, hlab⟩ := h
      rw [List.map_cons, List.nodup_cons] at hnd
      by_cases hp : p.1 = k
      · constructor
        · simp only [storePut, hp, if_pos, List.map_cons, List.nodup_cons]
          exact ⟨by rw [← hp]; exact hnd.1, hnd.2⟩
        · intro q hq
          simp only [storePut, hp, if_pos, List.mem_cons] at hq
          rcases hq with hq | hq
          · rw [hq]; exact hv
          · exact hlab q (List.mem_cons_of_mem _ hq)
      · obtain ⟨hndt, hlabt⟩ := storeWF_put k v hv t
          ⟨hnd.2, fun q hq => hlab q (List.mem_cons_of_mem _ hq)⟩
        constructor
        · simp only [storePut, hp, ite_false, if_neg, List.map_cons, List.nodup_cons]
          refine ⟨fun hmem => ?_, hndt⟩
          rcases storePut_mem_keys k p.1 v t hmem with h' | h'
          · exact hnd.1 h'
          · exact hp h'
        · intro q hq
          simp only [storePut, hp, ite_false, if_neg, List.mem_cons] at hq
          rcases hq with hq | hq
          · rw [hq]; exact hlab p (List.mem_cons_self p t)
          · exact hlabt q hq

/-- The save loop preserves well-formedness. -/
theorem saveFrom_WF : ∀ (dfs : List Rec) (s : Store), storeWF s → storeWF (saveFrom s dfs)
  | [], _, h => h
  | r :: rest, s, h =>
      saveFrom_WF rest (storePut s r.label r) (storeWF_put r.label r rfl s h)

/-- The store written by `save_dfs` is well-formed. -/
theorem save_dfs_WF (dfs : List Rec) : storeWF (save_dfs dfs) :=
  saveFrom_WF dfs [] ⟨List.nodup_nil, by intro p hp; cases hp⟩

/-- In a well-formed store, reloading and filtering by a label gives
exactly that label's (unique) entry. -/
theorem read_filter_eq_lookup :
    ∀ s : Store, storeWF s → ∀ l : String,
      (read_ivs s).filter (fun r => r.label = l) = (storeLookup s l).toList
  | [], _, l => rfl
  | p :: t, hWF, l => by
      obtain ⟨hnd, hlab⟩ := hWF
      rw [List.map_cons, List.nodup_cons] at hnd
      have hp : p.2.label = p.1 := hlab p (List.mem_cons_self p t)
      have hWFt : storeWF t := ⟨hnd.2, fun q hq => hlab q (List.mem_cons_of_mem _ hq)⟩
      by_cases hl : p.1 = l
      · have hrest : (read_ivs t).filter (fun r => r.label = l) = [] := by
          rw [List.filter_eq_nil_iff]
          intro r hr
          rcases List.mem_map.mp hr with ⟨q, hq, rfl⟩
          have hql : q.2.label = q.1 := hlab q (List.mem_cons_of_mem _ hq)
          have hq1 : q.1 ≠ l := by
            intro hc
            exact hnd.1 (List.mem_map.mpr ⟨q, hq, by rw [hc, ← hl]⟩)
          simp [hql, hq1]
        have hhead : p.2.label = l := by rw [hp]; exact hl
        simp [read_ivs, storeLookup, List.find?_cons, List.filter_cons, hl, hhead]
        simpa [read_ivs] using hrest
      · have hhead : ¬ p.2.label = l := by rw [hp]; exact hl
        have ih := read_filter_eq_lookup t hWFt l
        simp [read_ivs, storeLookup, List.find?_cons, List.filter_cons, hl, hhead]
        simpa [read_ivs, storeLookup] using ih

/-- When all labels to be written are fresh for the store and pairwise
distinct, the save loop is a plain append of (label, record) pairs. -/
theorem saveFrom_fresh :
    ∀ (dfs : List Rec) (s : Store), (dfs.map Rec.label).Nodup →
      (∀ r ∈ dfs, ∀ p ∈ s, p.1 ≠ r.label) →
      saveFrom s dfs = s ++ dfs.map (fun r => (r.label, r))
  | [], s, _, _ => by simp [saveFrom]
  | r :: rest, s, hnd, hfresh => by
      rw [List.map_cons, List.nodup_cons] at hnd
      have hput : storePut s r.label r = s ++ [(r.label, r)] := by
        clear hnd
        induction s with
        | nil => rfl
        | cons p t ih =>
            have hp : p.1 ≠ r.label := hfresh r (List.mem_cons_self _ _) p (List.mem_cons_self _ _)
            simp only [storePut, hp, ite_false, if_neg, List.cons_append]
            rw [ih (fun q hq p' hp' => hfresh q hq p' (List.mem_cons_of_mem _ hp'))]
      show saveFrom (storePut s r.label r) rest = _
      rw [hput]
      rw [saveFrom_fresh rest (s ++ [(r.label, r)]) hnd.2 ?_]
      · simp
      · intro q hq p hp
        rcases List.mem_append.mp hp with hp | hp
        · exact hfresh q (List.mem_cons_of_mem _ hq) p hp
        · rcases List.mem_singleton.mp hp with rfl
          intro hc
          have hmem : q.label ∈ List.map Rec.label rest := List.mem_map.mpr ⟨q, hq, rfl⟩
          rw [← hc] at hmem
          exact hnd.1 hmem

/-- C3: saving a collection and reloading the store preserves the set of
records when labels are pairwise distinct, and in general each label's
surviving record is exactly the last-written record with that label,
silently (no error value exists anywhere in the pipeline). -/
theorem save_then_read_roundtrip (dfs : List Rec) :
    ((dfs.map Rec.label).Nodup →
      (read_ivs (save_dfs dfs)).toFinset = dfs.toFinset) ∧
    ∀ l : String, (read_ivs (save_dfs dfs)).filter (fun r => r.label = l) =
      (dfs.reverse.find? (fun r => r.label = l)).toList := by
  constructor
  · intro hnd
    have hsave : save_dfs dfs = dfs.map (fun r => (r.label, r)) := by
      have h := saveFrom_fresh dfs [] hnd (by intro r _ p hp; cases hp)
      rw [save_dfs, h, List.nil_append]
    have : read_ivs (save_dfs dfs) = dfs := by
      rw [hsave]
      show (dfs.map (fun r => (r.label, r))).map (fun p => p.2) = dfs
      rw [List.map_map]
      exact List.map_id dfs
    rw [this]
  · intro l
    rw [read_filter_eq_lookup (save_dfs dfs) (save_dfs_WF dfs) l]
    rw [save_dfs, saveFrom_lookup l dfs []]
    rw [lastWith_eq_reverse_find l dfs]
    simp [storeLookup]

/-- Concrete record sharing `recA`'s label but with different samples. -/
def recC : Rec := ⟨"c.csv", "x", [⟨7, 8, 9⟩]⟩

/-- Witness for `save_then_read_roundtrip`: distinct labels round-trip
as a set, and a duplicated label keeps only the last-written record. -/
theorem save_then_read_roundtrip_witness :
    (read_ivs (save_dfs [recA, recB])).toFinset = ([recA, recB] : List Rec).toFinset ∧
    (read_ivs (save_dfs [recA, recB, recC])).filter (fun r => r.label = "x") =
      (([recA, recB, recC] : List Rec).reverse.find? (fun r => r.label = "x")).toList :=
  ⟨(save_then_read_roundtrip [recA, recB]).1 (by decide),
   (save_then_read_roundtrip [recA, recB, recC]).2 "x"⟩
